import Mathlib

/-!
# Verification of the `checkpoint` disk-inventory and installer tool

Shallow embedding of the core of the `checkpoint` repository
(packages `disk`, `installer` and the drive-grouping code) together with
proofs of the behavioural properties stated in its specification.

Conventions of the embedding:
* Go `uint64` is modelled as `Fin (2 ^ 64)`; `+`, `-` and `*` on `Fin`
  wrap modulo `2 ^ 64`, exactly as Go's unsigned arithmetic does.
* Go `string` is `String`; Go's byte-level scans are modelled on
  characters, which coincides with the byte-level behaviour on the ASCII
  data these scans look at (UTF-8 continuation bytes are never ASCII
  digits or separators).
* Go maps are association lists updated at the first matching key;
  iteration order of a Go map is unspecified, the association list keeps
  insertion order (a deterministic refinement; every property proved here
  is membership-based and does not depend on that order).
* Effectful calls (statfs, lstat, file creation) are oracles passed in as
  explicit function arguments.
* `time.Time` fields (`LastCheck`) carry no information used by any
  algorithm and are omitted from the model.
-/

namespace Checkpoint

/-- Go `uint64`. -/
abbrev U64 := Fin (2 ^ 64)

/-- Go `strings.Contains` on character lists: `p` occurs as a contiguous
run inside `l`. -/
def charsContain (p : List Char) : List Char → Bool
  | [] => p.isEmpty
  | c :: rest => p.isPrefixOf (c :: rest) || charsContain p rest

/-- Go `strings.Contains s sub`. -/
def strContains (s sub : String) : Bool :=
  charsContain sub.toList s.toList

/-- Go `strings.HasPrefix s pre` (the prefixes tested by this program
are all ASCII, where Go's byte-level prefix test and this character-level
one coincide). -/
def strStartsWith (s pre : String) : Bool :=
  pre.toList.isPrefixOf s.toList

/-- Splitter for Go `strings.Split(s, "/")`: cut at every `'/'`, keeping
empty parts; `acc` holds the current part, reversed. -/
def splitSlashAux : List Char → List Char → List String
  | [], acc => [String.mk acc.reverse]
  | c :: rest, acc =>
    if c = '/' then String.mk acc.reverse :: splitSlashAux rest []
    else splitSlashAux rest (c :: acc)

/-- Go `strings.Split(s, "/")`. -/
def strSplitSlash (s : String) : List String :=
  splitSlashAux s.toList []

/-- Accumulator pass of `goFields`: `acc` holds the characters of the
current token, reversed. -/
def fieldsAux : List Char → List Char → List String
  | [], acc => if acc.isEmpty then [] else [String.mk acc.reverse]
  | c :: rest, acc =>
    if c.isWhitespace then
      if acc.isEmpty then fieldsAux rest []
      else String.mk acc.reverse :: fieldsAux rest []
    else fieldsAux rest (c :: acc)

/-- Go `strings.Fields`: split around runs of whitespace, dropping empty
tokens.  (Go splits on `unicode.IsSpace`; the mount-table and command
data split here only on ASCII whitespace.) -/
def goFields (s : String) : List String :=
  fieldsAux s.toList []

/-- Disk classification (`type DiskType string` in `pkg/disk/types.go`).
The empty string is Go's zero value, returned by the classifier when no
predicate matches. -/
abbrev DiskType := String

def TypePhysical : DiskType := "physical"
def TypeLVM : DiskType := "lvm"
def TypeLoop : DiskType := "loop"
def TypeBind : DiskType := "bind"
def TypeNetwork : DiskType := "network"
def TypeFUSE : DiskType := "fuse"
def TypePath : DiskType := "path"
def TypeManual : DiskType := "manual"
def TypeSymlink : DiskType := "symlink"

/-- `disk.Disk` from `pkg/disk/types.go` (the inert `LastCheck`
timestamp is omitted; the Go field `Type` is spelled `type` here because
`Type` is reserved in Lean). -/
structure Disk where
  Path : String
  Filesystem : String
  Size : U64
  Available : U64
  Used : U64
  MountPoint : String
  type : DiskType
  IsSymlink : Bool
  LinkTarget : String
  Inode : U64
  Device : String
deriving DecidableEq, Repr

/-! ## `getBaseDiskName` (drive grouping, `src/unnamed/part_000`)

The Go loop walks the byte string from the right and, while it sees an
ASCII digit, resets `base` to the text before it; it stops at the first
non-digit.  Equivalently: strip the maximal trailing run of decimal
digits. -/

/-- Byte-level digit test of the Go loop (`'0' <= b && b <= '9'`). -/
def isAsciiDigit (c : Char) : Bool :=
  '0' ≤ c && c ≤ '9'

/-- `getBaseDiskName`: drop the trailing run of decimal digits from a
device path (`/dev/sda1 ↦ /dev/sda`). -/
def getBaseDiskName (path : String) : String :=
  String.mk ((path.toList.reverse.dropWhile isAsciiDigit).reverse)

/-! ## `isPermissionError` (`pkg/installer`) -/

/-- The package-manager-name disjunction from `isPermissionError`
(`strings.Contains(command, "apt") || ... || strings.Contains(command,
"zypper")`). -/
def mentionsPackageManager (command : String) : Bool :=
  strContains command "apt" || strContains command "dpkg" ||
  strContains command "yum" || strContains command "dnf" ||
  strContains command "pacman" || strContains command "zypper"

/-- `isPermissionError` from `pkg/installer`: classify a non-zero child
exit (`exitCode` is `(*exec.ExitError).ExitCode()`).  Exit code 100 is
always permission-suspected; codes 1 and 2 only when the command text
mentions a known package manager. -/
def isPermissionError (command : String) (exitCode : Int) : Bool :=
  if exitCode = 100 then true
  else if (exitCode = 1 || exitCode = 2) && mentionsPackageManager command then true
  else false

/-! ## `ExecuteCommand` (`pkg/installer`), pre-run phase

`ExecuteCommand` tokenizes the command, and — when a target disk is
given — probes write permission on its mount point and only then
configures the child process (working directory and environment) and
runs it.  The model covers the phase up to and including the decision to
invoke `cmd.Run()`: a `ChildSpec` is produced exactly when the source
reaches `cmd.Run()`, and an `Except.error` is the early return taken
before any child process is started.  The write probe (`canWrite`,
create-then-remove a `.checkpoint_test_<pid>` file) is an oracle
`writable : String → Bool`; `environ` is `os.Environ()` and `home` is
`os.Getenv("HOME")`. -/

/-- Configuration of the child process handed to `cmd.Run()`:
`cmd.Args`, `cmd.Dir` (Go zero value `""` = inherit) and `cmd.Env`
(`none` = inherit the full environment). -/
structure ChildSpec where
  argv : List String
  dir : String
  env : Option (List String)
deriving DecidableEq, Repr

/-- Pre-run phase of `ExecuteCommand`: tokenization, write probe, and
child configuration.  `Except.ok spec` means `cmd.Run()` is invoked with
`spec`; `Except.error e` means the function returned `e` before any
command was executed. -/
def executeCommandSpec (command : String) (targetDisk : Option Disk)
    (environ : List String) (home : String) (writable : String → Bool) :
    Except String ChildSpec :=
  let parts := goFields command
  if parts = [] then .error "empty command"
  else
    match targetDisk with
    | some d =>
      if writable d.MountPoint then
        .ok { argv := parts, dir := d.MountPoint,
              env := some (environ ++
                ["PREFIX=" ++ home ++ "/.local",
                 "DESTDIR=" ++ d.MountPoint,
                 "INSTALL_ROOT=" ++ d.MountPoint]) }
      else .error ("no write permission for " ++ d.MountPoint)
    | none => .ok { argv := parts, dir := "", env := none }

/-! ## `GetStats` and `GetSummary` (`pkg/disk/stats.go`) -/

/-- `disk.SymlinkInfo`. -/
structure SymlinkInfo where
  Source : String
  Target : String
deriving DecidableEq, Repr

/-- `disk.DiskStats`.  The Go maps `DisksByType` and `Hardlinks` are
association lists in insertion order. -/
structure DiskStats where
  TotalDisks : Nat
  TotalSize : U64
  TotalAvailable : U64
  TotalUsed : U64
  DisksByType : List (DiskType × Nat)
  Hardlinks : List (U64 × List String)
  Symlinks : List SymlinkInfo
deriving DecidableEq, Repr

/-- Go map increment `m[t]++`: bump the entry for `t`, inserting it (at
the end, in insertion order) when absent. -/
def bumpType : List (DiskType × Nat) → DiskType → List (DiskType × Nat)
  | [], t => [(t, 1)]
  | (k, n) :: rest, t =>
    if k = t then (k, n + 1) :: rest else (k, n) :: bumpType rest t

/-- Go map append `m[i] = append(m[i], p)`: extend the bucket for key
`i`, creating it when absent. -/
def addBucket : List (U64 × List String) → U64 → String → List (U64 × List String)
  | [], i, p => [(i, [p])]
  | (j, ps) :: rest, i, p =>
    if j = i then (j, ps ++ [p]) :: rest else (j, ps) :: addBucket rest i p

/-- First-match association lookup (Go map read). -/
def bucketFind : List (U64 × List String) → U64 → Option (List String)
  | [], _ => none
  | (j, ps) :: rest, i => if j = i then some ps else bucketFind rest i

/-- One iteration of the `for _, disk := range m.disks` loop of
`GetStats`. -/
def statStep (s : DiskStats) (d : Disk) : DiskStats :=
  let s1 := { s with DisksByType := bumpType s.DisksByType d.type }
  let s2 :=
    if d.type ≠ TypeSymlink then
      { s1 with TotalSize := s1.TotalSize + d.Size,
                TotalAvailable := s1.TotalAvailable + d.Available,
                TotalUsed := s1.TotalUsed + d.Used }
    else s1
  let s3 :=
    if 0 < d.Inode.val ∧ d.type ≠ TypeSymlink then
      { s2 with Hardlinks := addBucket s2.Hardlinks d.Inode d.Path }
    else s2
  if d.IsSymlink ∧ d.LinkTarget ≠ "" then
    { s3 with Symlinks := s3.Symlinks ++ [⟨d.Path, d.LinkTarget⟩] }
  else s3

/-- `(*Manager).GetStats` over the registry snapshot: single pass, then
the cleanup loop deleting hardlink buckets with fewer than two paths. -/
def GetStats (disks : List Disk) : DiskStats :=
  let s0 : DiskStats :=
    { TotalDisks := disks.length, TotalSize := 0, TotalAvailable := 0,
      TotalUsed := 0, DisksByType := [], Hardlinks := [], Symlinks := [] }
  let s := disks.foldl statStep s0
  { s with Hardlinks := s.Hardlinks.filter (fun b => decide (1 < b.2.length)) }

/-- The used-percentage value printed by `GetSummary`:
`float64(TotalUsed)/float64(TotalSize)*100`.  Go `float64` division by
zero is non-finite (`NaN` for `0/0`, `±Inf` otherwise), which `%.1f`
renders as `NaN`/`+Inf`, never as a number; that outcome is modelled as
`none`.  For a non-zero divisor the exact rational value is returned
(binary-float rounding is not modelled; no property here depends on
it). -/
def usedPercent (s : DiskStats) : Option ℚ :=
  if s.TotalSize.val = 0 then none
  else some ((s.TotalUsed.val : ℚ) / (s.TotalSize.val : ℚ) * 100)

/-! ## `determineDiskType`, `analyzeDisk` and `ScanDisks`
(`pkg/disk/stats.go`) -/

/-- `determineDiskType`: pure ordered predicate chain, first match wins;
`""` (Go's zero value) means no type was assigned. -/
def determineDiskType (device filesystem options : String) : DiskType :=
  if strContains options "bind" then TypeBind
  else if strStartsWith device "/dev/loop" then TypeLoop
  else if strStartsWith device "/dev/mapper/" then TypeLVM
  else if strStartsWith device "/dev/" then TypePhysical
  else if filesystem = "nfs" ∨ filesystem = "nfs4" ∨ filesystem = "cifs" ∨ filesystem = "smb" then
    TypeNetwork
  else if filesystem = "fuse" ∨ strContains filesystem "fuse" then TypeFUSE
  else if strStartsWith device "/" ∧ ¬ strStartsWith device "/dev/" then TypePath
  else ""

/-- Result of `syscall.Statfs` (the four fields the scanner reads). -/
structure FsStat where
  Blocks : U64
  Bfree : U64
  Bavail : U64
  Bsize : U64
deriving DecidableEq, Repr

/-- Result of `os.Lstat` on the device path: symlink mode bit, the
`filepath.EvalSymlinks` resolution (`none` when it fails) and the inode
from the underlying `syscall.Stat_t`. -/
structure LstatInfo where
  isSymlink : Bool
  linkTarget : Option String
  inode : U64
deriving DecidableEq, Repr

/-- The effectful system calls `ScanDisks` performs, as oracles:
`statfs` (`none` = the call failed), `lstat` of the device path, and
`statInode` = inode of `os.Stat` on the mount point. -/
structure ScanEnv where
  statfs : String → Option FsStat
  lstat : String → Option LstatInfo
  statInode : String → Option U64

/-- `(*Manager).analyzeDisk`: classify, query capacity (failure drops
the record), then resolve the inode/symlink data, falling back to the
mount point's inode when the device's own inode is 0. -/
def analyzeDisk (env : ScanEnv) (device mountPoint filesystem options : String) :
    Option Disk :=
  let diskType := determineDiskType device filesystem options
  if diskType = "" then none
  else
    match env.statfs mountPoint with
    | none => none
    | some stat =>
      let d0 : Disk :=
        { Path := device, Device := device, Filesystem := filesystem,
          Size := stat.Blocks * stat.Bsize,
          Available := stat.Bavail * stat.Bsize,
          Used := (stat.Blocks - stat.Bfree) * stat.Bsize,
          MountPoint := mountPoint, type := diskType,
          IsSymlink := false, LinkTarget := "", Inode := 0 }
      let d1 :=
        match env.lstat device with
        | some info =>
          let dA :=
            if info.isSymlink then
              { d0 with IsSymlink := true, LinkTarget := info.linkTarget.getD "" }
            else d0
          { dA with Inode := info.inode }
        | none => d0
      let d2 :=
        if d1.Inode = 0 then
          match env.statInode mountPoint with
          | some ino => { d1 with Inode := ino }
          | none => d1
        else d1
      some d2

/-- The virtual-filesystem skip set (`virtualFS` map in
`pkg/disk/stats.go`). -/
def virtualFS : List String :=
  ["tmpfs", "devtmpfs", "sysfs", "proc", "cgroup", "cgroup2", "debugfs",
   "securityfs", "pstore", "efivarfs", "bpf", "tracefs", "hugetlbfs",
   "mqueue", "configfs", "ramfs", "autofs", "fusectl"]

/-- One parsed mount-table record (fields beyond the fourth are
ignored). -/
structure MountRecord where
  device : String
  mountPoint : String
  filesystem : String
  options : String
deriving DecidableEq, Repr

/-- Field extraction of the scan loop, per line: the `continue`
conditions of `ScanDisks` (`line == ""`, `len(fields) < 4`) yield
`none`; otherwise the first four whitespace-separated fields. -/
def parseMountLine (line : String) : Option MountRecord :=
  if line = "" then none
  else
    match goFields line with
    | device :: mountPoint :: filesystem :: options :: _ =>
      some ⟨device, mountPoint, filesystem, options⟩
    | _ => none

/-- The line loop of `(*Manager).ScanDisks` over the mount table:
`seen` is the `seenMounts` deduplication set; a line is skipped when
empty or shorter than four fields (`parseMountLine`); the first
occurrence of a mount point claims it (even when the record is then
dropped by the virtual-fs filter or by `analyzeDisk`). -/
def scanDisksAux (env : ScanEnv) : List String → List String → List Disk
  | _, [] => []
  | seen, line :: rest =>
    match parseMountLine line with
    | none => scanDisksAux env seen rest
    | some r =>
      if seen.contains r.mountPoint then scanDisksAux env seen rest
      else if virtualFS.contains r.filesystem then
        scanDisksAux env (r.mountPoint :: seen) rest
      else
        match analyzeDisk env r.device r.mountPoint r.filesystem r.options with
        | some d => d :: scanDisksAux env (r.mountPoint :: seen) rest
        | none => scanDisksAux env (r.mountPoint :: seen) rest

/-- The registry contents after one `ScanDisks` pass on a cleared
registry, given the mount-table lines.  (`scanSymlinks`, called at the
end of the pass, is disabled in the source — its body is a bare
`return` — so it leaves the registry unchanged.) -/
def scanDisks (env : ScanEnv) (lines : List String) : List Disk :=
  scanDisksAux env [] lines

/-- Specification-side deduplication: keep only the first record for
each mount point (`seen` = mount points already claimed). -/
def specDedupeAux (seen : List String) : List MountRecord → List MountRecord
  | [] => []
  | r :: rest =>
    if seen.contains r.mountPoint then specDedupeAux seen rest
    else r :: specDedupeAux (r.mountPoint :: seen) rest

/-- Specification-side processing of a deduplicated record list: the
virtual-filesystem filter followed by `analyzeDisk`, with no further
deduplication. -/
def specProcessRecords (env : ScanEnv) (recs : List MountRecord) : List Disk :=
  recs.filterMap fun r =>
    if virtualFS.contains r.filesystem then none
    else analyzeDisk env r.device r.mountPoint r.filesystem r.options

/-! ## `GroupDisks` (`src/unnamed/part_000`) -/

/-- `disk.DriveGroup` (the Go field `Type` is spelled `type`). -/
structure DriveGroup where
  Name : String
  Icon : String
  type : String
  TotalSize : U64
  TotalUsed : U64
  Available : U64
  Disks : List Disk
  IsPrimary : Bool
  Description : String
deriving DecidableEq, Repr

/-- `getDriveName`: friendly display name, first by mount-point
substring hints, then by device class with the supplied numeric
index. -/
def getDriveName (d : Disk) (index : Nat) : String :=
  if strContains d.MountPoint "home" then "Home Drive"
  else if strContains d.MountPoint "data" then "Data Drive"
  else if strContains d.MountPoint "backup" then "Backup Drive"
  else if strContains d.MountPoint "media" then "Media Drive"
  else if d.type = TypeLVM then "Volume " ++ toString index
  else if strStartsWith d.Path "/dev/nvme" then "SSD Drive " ++ toString index
  else if strStartsWith d.Path "/dev/sd" then "Drive " ++ toString index
  else "Storage " ++ toString index

/-- `getDriveIcon`. -/
def getDriveIcon (d : Disk) : String :=
  if strStartsWith d.Path "/dev/nvme" then "⚡"
  else if d.type = TypeNetwork then "🌐"
  else if d.type = TypeLVM then "🗄️"
  else "💾"

/-- `getDriveDescription`. -/
def getDriveDescription (d : Disk) : String :=
  if strStartsWith d.Path "/dev/nvme" then "NVMe SSD"
  else if d.type = TypeLVM then "Logical Volume"
  else if strStartsWith d.Path "/dev/sd" then "Hard Drive"
  else "Storage Device"

/-- `getNetworkDriveName`: extract the server name from the second
path component when possible. -/
def getNetworkDriveName (d : Disk) : String :=
  if d.type = TypeNetwork then
    let parts := strSplitSlash d.Path
    if 2 < parts.length then "Network (" ++ parts.getD 2 "" ++ ")"
    else "Network Drive"
  else "Remote Storage"

/-- The 1 GiB floor below which a partition is dropped from grouping
(`1024*1024*1024`). -/
def oneGiB : U64 := (1073741824 : Fin (2 ^ 64))

/-- One step of the boot-partition merge inside the system-group pass:
a disk whose mount point starts with `/boot` is appended to the group,
its size and used bytes are summed in (available is not), and its path
is marked as grouped. -/
def bootStep (acc : DriveGroup × List String) (d : Disk) : DriveGroup × List String :=
  if strStartsWith d.MountPoint "/boot" then
    ({ acc.1 with Disks := acc.1.Disks ++ [d],
                  TotalSize := acc.1.TotalSize + d.Size,
                  TotalUsed := acc.1.TotalUsed + d.Used },
     acc.2 ++ [d.Path])
  else acc

/-- The system-group pass of `GroupDisks`: seed a group from the first
disk mounted at `/` (available copied from it alone), then merge every
`/boot`-prefixed disk from the whole input.  Returns the group and the
set of grouped paths; `none` (and no grouped paths) when no disk is
mounted at `/`. -/
def findSystemGroup (disks : List Disk) : Option (DriveGroup × List String) :=
  match disks.find? (fun d => d.MountPoint = "/") with
  | none => none
  | some root =>
    some (disks.foldl bootStep
      ({ Name := "System Drive", Icon := "💻", type := "system",
         TotalSize := root.Size, TotalUsed := root.Used,
         Available := root.Available, Disks := [root], IsPrimary := true,
         Description := "Linux System" },
       [root.Path]))

/-- Merging one more disk into an existing data group: member appended,
all three byte totals summed. -/
def addToGroup (g : DriveGroup) (d : Disk) : DriveGroup :=
  { g with Disks := g.Disks ++ [d],
           TotalSize := g.TotalSize + d.Size,
           TotalUsed := g.TotalUsed + d.Used,
           Available := g.Available + d.Available }

/-- A fresh data group seeded from its first disk; `index` is the value
`len(dataGroups)+1` read at creation time. -/
def newDataGroup (d : Disk) (index : Nat) : DriveGroup :=
  { Name := getDriveName d index, Icon := getDriveIcon d, type := "data",
    TotalSize := d.Size, TotalUsed := d.Used, Available := d.Available,
    Disks := [d], IsPrimary := false, Description := getDriveDescription d }

/-- Go map write `physicalDisks[base]`: update the existing group or
insert a fresh one (at the end, in insertion order). -/
def physUpdate (base : String) (d : Disk) (index : Nat) :
    List (String × DriveGroup) → List (String × DriveGroup)
  | [] => [(base, newDataGroup d index)]
  | (k, g) :: rest =>
    if k = base then (k, addToGroup g d) :: rest
    else (k, g) :: physUpdate base d index rest

/-- The skip condition of the data-group loop: already grouped, loop
device, virtual/transient mount-point namespace, or below the 1 GiB
floor. -/
def dataSkip (grouped : List String) (d : Disk) : Bool :=
  grouped.contains d.Path || d.type = TypeLoop ||
  strStartsWith d.MountPoint "/snap" || strStartsWith d.MountPoint "/run" ||
  strStartsWith d.MountPoint "/sys" || strStartsWith d.MountPoint "/proc" ||
  decide (d.Size < oneGiB)

/-- One iteration of the data-group loop.  `dataGroups` is the Go local
slice of that name: it is still empty while this loop runs (it is filled
only after the loop), and `len(dataGroups)+1` is the index handed to
`getDriveName` for a freshly created group. -/
def dataStep (dataGroups : List DriveGroup)
    (st : List String × List (String × DriveGroup)) (d : Disk) :
    List String × List (String × DriveGroup) :=
  if dataSkip st.1 d then st
  else
    (d.Path :: st.1,
     physUpdate (getBaseDiskName d.Path) d (dataGroups.length + 1) st.2)

/-- The network/removable pass: each still-ungrouped disk of type
`network` or `fuse` becomes its own singleton group. -/
def removablePass (grouped : List String) (disks : List Disk) : List DriveGroup :=
  disks.filterMap fun d =>
    if grouped.contains d.Path then none
    else if d.type = TypeNetwork ∨ d.type = TypeFUSE then
      some { Name := getNetworkDriveName d, Icon := "🌐", type := "network",
             TotalSize := d.Size, TotalUsed := d.Used,
             Available := d.Available, Disks := [d], IsPrimary := false,
             Description := "Network Storage" }
    else none

/-- `GroupDisks`: system group first, then the data groups collected in
the `physicalDisks` map (insertion order here; the Go map's iteration
order is unspecified), then the network groups. -/
def GroupDisks (disks : List Disk) : List DriveGroup :=
  let dataGroups : List DriveGroup := []
  let sys := findSystemGroup disks
  let grouped0 := match sys with
    | some (_, paths) => paths
    | none => []
  let st := disks.foldl (dataStep dataGroups) (grouped0, [])
  let dataGroups1 := dataGroups ++ st.2.map Prod.snd
  let removableGroups := removablePass st.1 disks
  (match sys with
   | some (g, _) => [g]
   | none => []) ++ dataGroups1 ++ removableGroups

/-! ## List helpers -/

lemma dropWhile_append_of_all {q : Char → Bool} (l t : List Char)
    (h : ∀ c ∈ l, q c = true) :
    List.dropWhile q (l ++ t) = List.dropWhile q t := by
  induction l with
  | nil => rfl
  | cons c cs ih =>
    simp only [List.cons_append, List.dropWhile_cons, h c (by simp)]
    exact ih fun c hc => h c (by simp [hc])

lemma dropWhile_eq_self_of_head {q : Char → Bool} (l : List Char)
    (h : ∀ c, l.head? = some c → q c = false) :
    List.dropWhile q l = l := by
  cases l with
  | nil => rfl
  | cons c cs => simp [List.dropWhile_cons, h c rfl]

/-! ## C8 — base-key extraction -/

lemma getBaseDiskName_append_digits (p : String) (ds : List Char)
    (hp : Option.all (fun c => ! isAsciiDigit c) p.toList.getLast? = true)
    (hd : ds.all isAsciiDigit = true) :
    getBaseDiskName (p ++ String.mk ds) = p := by
  unfold getBaseDiskName
  have h1 : (p ++ String.mk ds).toList = p.toList ++ ds := by
    simp [String.toList, String.data_append]
  rw [h1, List.reverse_append]
  rw [dropWhile_append_of_all _ _
    (fun c hc => (List.all_eq_true.mp hd) c (List.mem_reverse.mp hc))]
  rw [dropWhile_eq_self_of_head _ ?_]
  · rw [List.reverse_reverse]
    cases p
    rfl
  · intro c hc
    rw [List.head?_reverse] at hc
    rw [hc] at hp
    simpa using hp

/-- **C8.**  Base-key extraction strips exactly the trailing run of
decimal digits: two device paths made of the same prefix (not ending in
a digit) followed by digit runs extract to the same key, namely that
prefix, and a path with no trailing digits is its own key. -/
theorem getBaseDiskName_strips_digits (p : String) (d1 d2 : List Char)
    (hp : Option.all (fun c => ! isAsciiDigit c) p.toList.getLast? = true)
    (h1 : d1.all isAsciiDigit = true) (h2 : d2.all isAsciiDigit = true) :
    getBaseDiskName (p ++ String.mk d1) = getBaseDiskName (p ++ String.mk d2)
    ∧ getBaseDiskName (p ++ String.mk d1) = p
    ∧ getBaseDiskName p = p := by
  have e1 := getBaseDiskName_append_digits p d1 hp h1
  have e2 := getBaseDiskName_append_digits p d2 hp h2
  have e0 := getBaseDiskName_append_digits p [] hp rfl
  refine ⟨e1.trans e2.symm, e1, ?_⟩
  have : p ++ String.mk [] = p := String.append_empty p
  rwa [this] at e0

/-- Witness for C8 at `"/dev/sda" ++ "1"` and `"/dev/sda" ++ "2"`. -/
theorem getBaseDiskName_strips_digits_witness :
    (Option.all (fun c => ! isAsciiDigit c) ("/dev/sda").toList.getLast? = true
     ∧ (['1'].all isAsciiDigit = true) ∧ (['2'].all isAsciiDigit = true))
    ∧ (getBaseDiskName ("/dev/sda" ++ String.mk ['1'])
        = getBaseDiskName ("/dev/sda" ++ String.mk ['2'])
       ∧ getBaseDiskName ("/dev/sda" ++ String.mk ['1']) = "/dev/sda"
       ∧ getBaseDiskName "/dev/sda" = "/dev/sda") :=
  ⟨⟨by decide, by decide, by decide⟩,
   getBaseDiskName_strips_digits "/dev/sda" ['1'] ['2'] (by decide) (by decide) (by decide)⟩

/-! ## C3 — permission-failure classification -/

/-- **C3.**  Classification of a non-zero child exit: code 100 is
permission-suspected regardless of the command text; codes 1 and 2 are
permission-suspected exactly when the command text contains a known
package-manager name; every other non-zero exit is a plain failure. -/
theorem isPermissionError_classification (command : String) (exitCode : Int)
    (hnz : exitCode ≠ 0) :
    isPermissionError command exitCode = true ↔
      (exitCode = 100 ∨
       ((exitCode = 1 ∨ exitCode = 2) ∧ mentionsPackageManager command = true)) := by
  unfold isPermissionError
  split_ifs with h1 h2
  · simp [h1]
  · rcases Bool.and_eq_true .. |>.mp h2 with ⟨ho, hm⟩
    have : exitCode = 1 ∨ exitCode = 2 := by
      rcases Bool.or_eq_true .. |>.mp ho with h | h
      · exact Or.inl (by exact_mod_cast decide_eq_true_eq.mp h)
      · exact Or.inr (by exact_mod_cast decide_eq_true_eq.mp h)
    simp [this, hm]
  · constructor
    · intro h
      cases h
    · intro h
      rcases h with h | ⟨ho, hm⟩
      · exact absurd h h1
      · exact absurd (by rcases ho with h | h <;> simp [h, hm]) h2

/-- Witness for C3 at exit code 1 with an `apt` command. -/
theorem isPermissionError_classification_witness :
    ((1 : Int) ≠ 0)
    ∧ (isPermissionError "sudo apt install cowsay" 1 = true ↔
        ((1 : Int) = 100 ∨
         (((1 : Int) = 1 ∨ (1 : Int) = 2)
           ∧ mentionsPackageManager "sudo apt install cowsay" = true))) :=
  ⟨by decide, isPermissionError_classification "sudo apt install cowsay" 1 (by decide)⟩

/-! ## C1 and C6 — `ExecuteCommand` with a target disk -/

/-- A concrete physical data disk used to instantiate the
`ExecuteCommand` theorems. -/
def sampleDisk : Disk :=
  { Path := "/dev/sdb1", Filesystem := "ext4", Size := 2147483648,
    Available := 9, Used := 7, MountPoint := "/mnt/x",
    type := TypePhysical, IsSymlink := false, LinkTarget := "",
    Inode := 9, Device := "/dev/sdb1" }

/-- **C1, counterexample.**  With the probe succeeding, home directory
`/home/u`, and target mount point `/mnt/x`, the child environment is the
inherited environment plus `PREFIX=/home/u/.local`, `DESTDIR=/mnt/x`,
`INSTALL_ROOT=/mnt/x`: the prefix variable points inside the invoking
user's home directory, not at the mount point, so the three variables do
not all point at the mount point as the claim states. -/
theorem executeCommand_env_counterexample :
    executeCommandSpec "make install" (some sampleDisk) ["PATH=/bin"]
        "/home/u" (fun _ => true) =
      .ok { argv := ["make", "install"], dir := "/mnt/x",
            env := some ["PATH=/bin", "PREFIX=/home/u/.local",
                         "DESTDIR=/mnt/x", "INSTALL_ROOT=/mnt/x"] }
    ∧ "PREFIX=/mnt/x" ∉
        (["PATH=/bin", "PREFIX=/home/u/.local", "DESTDIR=/mnt/x",
          "INSTALL_ROOT=/mnt/x"] : List String) := by
  constructor
  · rfl
  · decide

/-- **C1, amended.**  When the write probe succeeds and the command has
at least one token, the child's working directory is the mount point and
its environment is the full inherited environment extended with
`PREFIX` pointing at `$HOME/.local` and with `DESTDIR` and
`INSTALL_ROOT` pointing at the mount point. -/
theorem executeCommand_env_amended (command : String) (d : Disk)
    (environ : List String) (home : String) (writable : String → Bool)
    (hfields : goFields command ≠ [])
    (hw : writable d.MountPoint = true) :
    executeCommandSpec command (some d) environ home writable =
      .ok { argv := goFields command, dir := d.MountPoint,
            env := some (environ ++
              ["PREFIX=" ++ home ++ "/.local",
               "DESTDIR=" ++ d.MountPoint,
               "INSTALL_ROOT=" ++ d.MountPoint]) } := by
  unfold executeCommandSpec
  simp [hfields, hw]

/-- Witness for the amended C1. -/
theorem executeCommand_env_amended_witness :
    (goFields "make install" ≠ ([] : List String)
     ∧ (fun _ : String => true) sampleDisk.MountPoint = true)
    ∧ executeCommandSpec "make install" (some sampleDisk) ["PATH=/bin"]
        "/home/u" (fun _ => true) =
      .ok { argv := goFields "make install", dir := sampleDisk.MountPoint,
            env := some (["PATH=/bin"] ++
              ["PREFIX=" ++ "/home/u" ++ "/.local",
               "DESTDIR=" ++ sampleDisk.MountPoint,
               "INSTALL_ROOT=" ++ sampleDisk.MountPoint]) } :=
  ⟨⟨by decide, rfl⟩,
   executeCommand_env_amended "make install" sampleDisk ["PATH=/bin"]
     "/home/u" (fun _ => true) (by decide) rfl⟩

/-- **C6.**  When the command has at least one token and the write probe
on the target's mount point fails, `ExecuteCommand` returns the
write-permission error before any child process is started (the model
produces a `ChildSpec` exactly when the source reaches `cmd.Run()`). -/
theorem executeCommand_aborts_when_unwritable (command : String) (d : Disk)
    (environ : List String) (home : String) (writable : String → Bool)
    (hfields : goFields command ≠ [])
    (hw : writable d.MountPoint = false) :
    executeCommandSpec command (some d) environ home writable =
      .error ("no write permission for " ++ d.MountPoint) := by
  unfold executeCommandSpec
  simp [hfields, hw]

/-- Witness for C6. -/
theorem executeCommand_aborts_when_unwritable_witness :
    (goFields "make install" ≠ ([] : List String)
     ∧ (fun _ : String => false) sampleDisk.MountPoint = false)
    ∧ executeCommandSpec "make install" (some sampleDisk) ["PATH=/bin"]
        "/home/u" (fun _ => false) =
      .error ("no write permission for " ++ sampleDisk.MountPoint) :=
  ⟨⟨by decide, rfl⟩,
   executeCommand_aborts_when_unwritable "make install" sampleDisk
     ["PATH=/bin"] "/home/u" (fun _ => false) (by decide) rfl⟩

/-! ## C2 — used-percentage zero guard -/

/-- **C2.**  The source has no zero-size guard: on the `DiskStats` of an
empty registry (`TotalSize = 0`), the percentage `GetSummary` prints is
the non-finite `float64` value `0/0` (`NaN`, modelled `none`), not the
`0%` the specification requires. -/
theorem usedPercent_no_zero_guard :
    (GetStats []).TotalSize = 0
    ∧ usedPercent (GetStats []) = none
    ∧ usedPercent (GetStats []) ≠ some 0 := by
  refine ⟨rfl, rfl, ?_⟩
  decide



/-! ## Facts about `analyzeDisk` and the scan loop -/

lemma analyzeDisk_fields {env : ScanEnv} {dev mp fs opts : String} {d : Disk}
    (h : analyzeDisk env dev mp fs opts = some d) :
    d.MountPoint = mp ∧ d.type = determineDiskType dev fs opts ∧
    determineDiskType dev fs opts ≠ "" := by
  simp only [analyzeDisk] at h
  split at h
  · simp at h
  next h0 =>
    refine ⟨?_, ?_, h0⟩ <;>
    · cases hst : env.statfs mp <;> rw [hst] at h
      · simp at h
      · cases hls : env.lstat dev <;> rw [hls] at h <;> dsimp only at h <;>
          split_ifs at h <;>
          (try (cases hsi : env.statInode mp <;> rw [hsi] at h)) <;>
          (obtain rfl := Option.some.inj h) <;> rfl

lemma scanDisksAux_sound (env : ScanEnv) :
    ∀ (lines seen : List String) (d : Disk), d ∈ scanDisksAux env seen lines →
      ∃ dev mp fs opts, analyzeDisk env dev mp fs opts = some d := by
  intro lines
  induction lines with
  | nil => intro seen d h; simp [scanDisksAux] at h
  | cons line rest ih =>
    intro seen d h
    simp only [scanDisksAux] at h
    cases hp : parseMountLine line <;> rw [hp] at h
    · exact ih seen d h
    next r =>
      dsimp only at h
      split_ifs at h with h1 h2
      · exact ih seen d h
      · exact ih _ d h
      · cases ha : analyzeDisk env r.device r.mountPoint r.filesystem r.options <;>
          rw [ha] at h
        · exact ih _ d h
        · rcases List.mem_cons.mp h with rfl | hmem
          · exact ⟨r.device, r.mountPoint, r.filesystem, r.options, ha⟩
          · exact ih _ d hmem

lemma scanDisksAux_pairwise (env : ScanEnv) :
    ∀ (lines seen : List String),
      (∀ d ∈ scanDisksAux env seen lines, d.MountPoint ∉ seen) ∧
      List.Pairwise (fun a b : Disk => a.MountPoint ≠ b.MountPoint)
        (scanDisksAux env seen lines) := by
  intro lines
  induction lines with
  | nil =>
    intro seen
    exact ⟨by simp [scanDisksAux], by simp [scanDisksAux]⟩
  | cons line rest ih =>
    intro seen
    simp only [scanDisksAux]
    cases hp : parseMountLine line
    · exact ih seen
    next r =>
      dsimp only
      by_cases h1 : seen.contains r.mountPoint = true
      · rw [if_pos h1]
        exact ih seen
      · rw [if_neg h1]
        have h1' : r.mountPoint ∉ seen := by simpa using h1
        have weaken : ∀ d : Disk, d.MountPoint ∉ r.mountPoint :: seen →
            d.MountPoint ∉ seen :=
          fun d hd hmem => hd (List.mem_cons_of_mem _ hmem)
        by_cases h2 : virtualFS.contains r.filesystem = true
        · rw [if_pos h2]
          exact ⟨fun d hd => weaken d ((ih _).1 d hd), (ih _).2⟩
        · rw [if_neg h2]
          cases ha : analyzeDisk env r.device r.mountPoint r.filesystem r.options
          · exact ⟨fun d hd => weaken d ((ih _).1 d hd), (ih _).2⟩
          next val =>
            have hmpv : val.MountPoint = r.mountPoint := (analyzeDisk_fields ha).1
            constructor
            · intro d hd
              rcases List.mem_cons.mp hd with rfl | hmem
              · rw [hmpv]; exact h1'
              · exact weaken d ((ih _).1 d hmem)
            · rw [List.pairwise_cons]
              refine ⟨fun b hb => ?_, (ih _).2⟩
              have := (ih (r.mountPoint :: seen)).1 b hb
              rw [hmpv]
              exact fun he => this (he ▸ List.mem_cons_self _ _)
  
lemma scanDisksAux_eq_spec (env : ScanEnv) :
    ∀ (lines seen : List String),
      scanDisksAux env seen lines =
        specProcessRecords env (specDedupeAux seen (lines.filterMap parseMountLine)) := by
  intro lines
  induction lines with
  | nil => intro seen; rfl
  | cons line rest ih =>
    intro seen
    simp only [scanDisksAux, List.filterMap_cons]
    cases hp : parseMountLine line
    · exact ih seen
    next r =>
      dsimp only
      simp only [specDedupeAux]
      by_cases h1 : seen.contains r.mountPoint = true
      · rw [if_pos h1, if_pos h1]
        exact ih seen
      · rw [if_neg h1, if_neg h1]
        simp only [specProcessRecords, List.filterMap_cons]
        by_cases h2 : virtualFS.contains r.filesystem = true
        · rw [if_pos h2]
          simp only [if_pos h2]
          exact ih _
        · rw [if_neg h2]
          simp only [if_neg h2]
          have hrec := ih (r.mountPoint :: seen)
          simp only [specProcessRecords] at hrec
          cases analyzeDisk env r.device r.mountPoint r.filesystem r.options with
          | none => exact hrec
          | some val => exact congrArg (val :: ·) hrec

/-- **C5.**  After one scan pass on a cleared registry the registry
holds at most one `Disk` per distinct mount point, and the pass is
equivalent to first discarding every mount-table record whose mount
point already occurred earlier (first occurrence wins) and then
processing the deduplicated records without further deduplication. -/
theorem scanDisks_unique_mountpoints (env : ScanEnv) (lines : List String) :
    List.Pairwise (fun a b : Disk => a.MountPoint ≠ b.MountPoint)
      (scanDisks env lines)
    ∧ scanDisks env lines =
        specProcessRecords env (specDedupeAux [] (lines.filterMap parseMountLine)) :=
  ⟨(scanDisksAux_pairwise env lines []).2, scanDisksAux_eq_spec env lines []⟩



/-- **C7.**  `determineDiskType` is a pure ordered predicate chain in
which the first match wins (each classification holds exactly when its
own predicate is the first to fire), a record matching no predicate gets
no type (`""`), such a record is rejected by `analyzeDisk`, and hence no
disk in the registry after a scan carries an empty type. -/
theorem determineDiskType_first_match (device filesystem options : String) :
    (determineDiskType device filesystem options = TypeBind ↔
       strContains options "bind" = true)
    ∧ (determineDiskType device filesystem options = TypeLoop ↔
       (strContains options "bind" = false
        ∧ strStartsWith device "/dev/loop" = true))
    ∧ (determineDiskType device filesystem options = TypeLVM ↔
       (strContains options "bind" = false
        ∧ strStartsWith device "/dev/loop" = false
        ∧ strStartsWith device "/dev/mapper/" = true))
    ∧ (determineDiskType device filesystem options = TypePhysical ↔
       (strContains options "bind" = false
        ∧ strStartsWith device "/dev/loop" = false
        ∧ strStartsWith device "/dev/mapper/" = false
        ∧ strStartsWith device "/dev/" = true))
    ∧ (determineDiskType device filesystem options = TypeNetwork ↔
       (strContains options "bind" = false
        ∧ strStartsWith device "/dev/loop" = false
        ∧ strStartsWith device "/dev/mapper/" = false
        ∧ strStartsWith device "/dev/" = false
        ∧ (filesystem = "nfs" ∨ filesystem = "nfs4" ∨ filesystem = "cifs"
           ∨ filesystem = "smb")))
    ∧ (determineDiskType device filesystem options = TypeFUSE ↔
       (strContains options "bind" = false
        ∧ strStartsWith device "/dev/loop" = false
        ∧ strStartsWith device "/dev/mapper/" = false
        ∧ strStartsWith device "/dev/" = false
        ∧ ¬ (filesystem = "nfs" ∨ filesystem = "nfs4" ∨ filesystem = "cifs"
             ∨ filesystem = "smb")
        ∧ (filesystem = "fuse" ∨ strContains filesystem "fuse" = true)))
    ∧ (determineDiskType device filesystem options = TypePath ↔
       (strContains options "bind" = false
        ∧ strStartsWith device "/dev/loop" = false
        ∧ strStartsWith device "/dev/mapper/" = false
        ∧ strStartsWith device "/dev/" = false
        ∧ ¬ (filesystem = "nfs" ∨ filesystem = "nfs4" ∨ filesystem = "cifs"
             ∨ filesystem = "smb")
        ∧ ¬ (filesystem = "fuse" ∨ strContains filesystem "fuse" = true)
        ∧ strStartsWith device "/" = true))
    ∧ ((determineDiskType device filesystem options = "") →
       ∀ (env : ScanEnv) (mountPoint : String),
         analyzeDisk env device mountPoint filesystem options = none)
    ∧ (∀ (env : ScanEnv) (lines : List String),
       ∀ d ∈ scanDisks env lines, d.type ≠ "") := by
  refine ⟨?i1, ?i2, ?i3, ?i4, ?i5, ?i6, ?i7, ?excl, ?scan⟩
  case excl =>
    intro h0 env mountPoint
    simp [analyzeDisk, h0]
  case scan =>
    intro env lines d hd
    obtain ⟨dev, mp, fs, opts, ha⟩ := scanDisksAux_sound env lines [] d hd
    obtain ⟨-, ht, hne⟩ := analyzeDisk_fields ha
    rw [ht]
    exact hne
  all_goals
    unfold determineDiskType
    split_ifs <;>
      simp_all [TypeBind, TypeLoop, TypeLVM, TypePhysical, TypeNetwork,
                TypeFUSE, TypePath]

/-- Witness for C7: a plain `/dev/` device classifies as `physical`
because the bind, loop and device-mapper predicates all failed first. -/
theorem determineDiskType_first_match_witness :
    determineDiskType "/dev/sda1" "ext4" "rw" = TypePhysical :=
  (determineDiskType_first_match "/dev/sda1" "ext4" "rw").2.2.2.1.mpr
    (by decide)



/-! ## C9 — hardlink detection in `GetStats` -/

/-- The hardlink-bucket part of one `GetStats` iteration. -/
def hlStep (m : List (U64 × List String)) (d : Disk) : List (U64 × List String) :=
  if 0 < d.Inode.val ∧ d.type ≠ TypeSymlink then addBucket m d.Inode d.Path else m

/-- The disks bucketed under inode `i`: nonzero inode equal to `i` and
type other than `symlink`, in registry order, projected to paths. -/
def hlMembers (disks : List Disk) (i : U64) : List String :=
  (disks.filter
    (fun d => decide (d.Inode = i ∧ 0 < d.Inode.val ∧ d.type ≠ TypeSymlink))).map
    (·.Path)

/-- Joint effect on a bucket of an old lookup result and newly appended
paths. -/
def combineBucket : Option (List String) → List String → Option (List String)
  | none, [] => none
  | o, ps => some (o.getD [] ++ ps)

lemma statStep_hardlinks (s : DiskStats) (d : Disk) :
    (statStep s d).Hardlinks = hlStep s.Hardlinks d := by
  unfold statStep hlStep
  split_ifs <;> rfl

lemma foldl_statStep_hardlinks (disks : List Disk) (s : DiskStats) :
    (disks.foldl statStep s).Hardlinks = disks.foldl hlStep s.Hardlinks := by
  induction disks generalizing s with
  | nil => rfl
  | cons d ds ih => simp [List.foldl_cons, ih, statStep_hardlinks]

lemma bucketFind_addBucket (m : List (U64 × List String)) (i k : U64) (p : String) :
    bucketFind (addBucket m i p) k =
      if k = i then some (((bucketFind m i).getD []) ++ [p]) else bucketFind m k := by
  induction m with
  | nil =>
    by_cases h : k = i
    · subst h; simp [addBucket, bucketFind]
    · have h' : ¬(i = k) := fun he => h he.symm
      simp [addBucket, bucketFind, h, h']
  | cons kv rest ih =>
    obtain ⟨j, ps⟩ := kv
    by_cases hji : j = i
    · subst hji
      by_cases hk : k = j
      · subst hk
        simp [addBucket, bucketFind]
      · have hk' : ¬(j = k) := fun he => hk he.symm
        simp [addBucket, bucketFind, hk, hk']
    · by_cases hk : k = j
      · subst hk
        have hki : ¬(k = i) := fun he => hji (he ▸ rfl)
        simp [addBucket, bucketFind, hji, hki]
      · have hk' : ¬(j = k) := fun he => hk he.symm
        simp [addBucket, bucketFind, hji, hk, hk', ih]

lemma hlFold_bucketFind (i : U64) :
    ∀ (disks : List Disk) (m : List (U64 × List String)),
      bucketFind (disks.foldl hlStep m) i =
        combineBucket (bucketFind m i) (hlMembers disks i) := by
  intro disks
  induction disks with
  | nil =>
    intro m
    cases h : bucketFind m i <;> simp [hlMembers, combineBucket, h]
  | cons d ds ih =>
    intro m
    rw [List.foldl_cons, ih]
    by_cases hc : 0 < d.Inode.val ∧ d.type ≠ TypeSymlink
    · by_cases hi : d.Inode = i
      · have hmem : hlMembers (d :: ds) i = d.Path :: hlMembers ds i := by
          unfold hlMembers
          rw [List.filter_cons_of_pos]
          · rfl
          · simp only [decide_eq_true_eq]
            exact ⟨hi, hc⟩
        rw [hmem]
        have hstep : hlStep m d = addBucket m d.Inode d.Path := by
          simp [hlStep, hc]
        rw [hstep, hi, bucketFind_addBucket, if_pos rfl]
        cases h : bucketFind m i <;>
          simp [combineBucket, h, List.append_assoc]
      · have hmem : hlMembers (d :: ds) i = hlMembers ds i := by
          unfold hlMembers
          rw [List.filter_cons_of_neg]
          simp only [decide_eq_true_eq]
          exact fun hx => hi hx.1
        have hstep : hlStep m d = addBucket m d.Inode d.Path := by
          simp [hlStep, hc]
        rw [hmem, hstep, bucketFind_addBucket, if_neg (fun he => hi he.symm)]
    · have hmem : hlMembers (d :: ds) i = hlMembers ds i := by
        simp only [hlMembers, List.filter_cons]
        rw [if_neg]
        simp only [decide_eq_true_eq]
        exact fun hx => hc ⟨hx.2.1, hx.2.2⟩
      have hstep : hlStep m d = m := by
        simp [hlStep, hc]
      rw [hmem, hstep]

lemma addBucket_keys (m : List (U64 × List String)) (i : U64) (p : String) :
    (addBucket m i p).map Prod.fst = m.map Prod.fst ∨
    (addBucket m i p).map Prod.fst = m.map Prod.fst ++ [i] := by
  induction m with
  | nil => right; simp [addBucket]
  | cons kv rest ih =>
    obtain ⟨j, ps⟩ := kv
    by_cases hji : j = i
    · left; simp [addBucket, hji]
    · rcases ih with h | h
      · left; simp [addBucket, hji, h]
      · right; simp [addBucket, hji, h]

lemma addBucket_nodup (m : List (U64 × List String)) (i : U64) (p : String)
    (h : (m.map Prod.fst).Nodup) : ((addBucket m i p).map Prod.fst).Nodup := by
  induction m with
  | nil => simp [addBucket]
  | cons kv rest ih =>
    obtain ⟨j, ps⟩ := kv
    simp only [List.map_cons, List.nodup_cons] at h
    by_cases hji : j = i
    · simpa [addBucket, hji, List.nodup_cons] using h
    · have hrest := ih h.2
      simp only [addBucket, if_neg hji, List.map_cons, List.nodup_cons]
      refine ⟨?_, hrest⟩
      rcases addBucket_keys rest i p with hk | hk <;> rw [hk]
      · exact h.1
      · simp only [List.mem_append, List.mem_singleton]
        rintro (hmem | rfl)
        · exact h.1 hmem
        · exact hji rfl

lemma hlFold_nodup :
    ∀ (disks : List Disk) (m : List (U64 × List String)),
      (m.map Prod.fst).Nodup → ((disks.foldl hlStep m).map Prod.fst).Nodup := by
  intro disks
  induction disks with
  | nil => exact fun m h => h
  | cons d ds ih =>
    intro m h
    rw [List.foldl_cons]
    refine ih _ ?_
    unfold hlStep
    split_ifs
    · exact addBucket_nodup m d.Inode d.Path h
    · exact h

lemma mem_iff_bucketFind (m : List (U64 × List String))
    (h : (m.map Prod.fst).Nodup) (i : U64) (ps : List String) :
    (i, ps) ∈ m ↔ bucketFind m i = some ps := by
  induction m with
  | nil => simp [bucketFind]
  | cons kv rest ih =>
    obtain ⟨j, qs⟩ := kv
    simp only [List.map_cons, List.nodup_cons] at h
    by_cases hji : j = i
    · subst hji
      simp only [bucketFind, if_pos rfl, List.mem_cons]
      constructor
      · rintro (he | hmem)
        · cases he; rfl
        · exact absurd (List.mem_map_of_mem Prod.fst hmem) h.1
      · intro he
        left
        cases Option.some.inj he
        rfl
    · simp only [bucketFind, if_neg hji, List.mem_cons]
      rw [← ih h.2]
      constructor
      · rintro (he | hmem)
        · cases he; exact absurd rfl hji
        · exact hmem
      · exact fun hmem => Or.inr hmem

/-- **C9.**  Hardlink detection: `GetStats` reports a hardlink group
`(i, ps)` exactly when `ps` is the list of paths of the disks with
nonzero inode `i` and type other than `symlink`, and there are at least
two of them; in particular a lone disk with a unique inode yields no
group. -/
theorem getStats_hardlink_groups (disks : List Disk) (i : U64) (ps : List String) :
    (i, ps) ∈ (GetStats disks).Hardlinks ↔
      (ps = hlMembers disks i ∧ 2 ≤ ps.length) := by
  have hbase :
      (GetStats disks).Hardlinks =
        (disks.foldl hlStep []).filter (fun b => decide (1 < b.2.length)) := by
    dsimp only [GetStats]
    rw [foldl_statStep_hardlinks]
  rw [hbase, List.mem_filter]
  have hnodup := hlFold_nodup disks [] (by simp)
  rw [mem_iff_bucketFind _ hnodup, hlFold_bucketFind]
  have hfind : bucketFind [] i = none := rfl
  rw [hfind]
  constructor
  · rintro ⟨hcomb, hlen⟩
    simp only [decide_eq_true_eq] at hlen
    have hps : ps = hlMembers disks i := by
      rcases hms : hlMembers disks i with _ | ⟨q, qs⟩ <;> rw [hms] at hcomb
      · simp [combineBucket] at hcomb
      · simpa [combineBucket] using (Option.some.inj hcomb).symm
    exact ⟨hps, by omega⟩
  · rintro ⟨hps, hlen⟩
    subst hps
    refine ⟨?_, by simp; omega⟩
    rcases hms : hlMembers disks i with _ | ⟨q, qs⟩
    · rw [hms] at hlen
      simp at hlen
    · simp [combineBucket]



/-! ## C4 and C10 — drive-grouping invariants -/

/-- Wrap-around (`uint64`) sum of a disk field over a member list. -/
def sumBy (f : Disk → U64) (l : List Disk) : U64 :=
  l.foldl (fun acc d => acc + f d) 0

lemma foldl_add_shift (f : Disk → U64) (l : List Disk) (a : U64) :
    l.foldl (fun acc d => acc + f d) a = a + sumBy f l := by
  induction l generalizing a with
  | nil => simp [sumBy]
  | cons d ds ih =>
    simp only [sumBy, List.foldl_cons] at *
    rw [ih (a + f d), ih (0 + f d), zero_add, add_assoc]

lemma sumBy_cons (f : Disk → U64) (d : Disk) (l : List Disk) :
    sumBy f (d :: l) = f d + sumBy f l := by
  simp only [sumBy, List.foldl_cons]
  rw [foldl_add_shift, zero_add]
  rfl

lemma sumBy_append (f : Disk → U64) (l1 l2 : List Disk) :
    sumBy f (l1 ++ l2) = sumBy f l1 + sumBy f l2 := by
  simp only [sumBy, List.foldl_append]
  rw [foldl_add_shift]
  rfl

lemma sumBy_single (f : Disk → U64) (d : Disk) : sumBy f [d] = f d := by
  simp [sumBy]

/-- Invariant of every group held in the `physicalDisks` map: type
`"data"`, all three totals are the sums over the member list, and the
display name was produced by `getDriveName` at the given index. -/
def dataGroupInv (index : Nat) (g : DriveGroup) : Prop :=
  g.type = "data"
  ∧ g.TotalSize = sumBy (·.Size) g.Disks
  ∧ g.TotalUsed = sumBy (·.Used) g.Disks
  ∧ g.Available = sumBy (·.Available) g.Disks
  ∧ ∃ d : Disk, g.Name = getDriveName d index

lemma newDataGroup_inv (d : Disk) (i : Nat) : dataGroupInv i (newDataGroup d i) := by
  refine ⟨rfl, ?_, ?_, ?_, ⟨d, rfl⟩⟩ <;> simp [newDataGroup, sumBy]

lemma addToGroup_inv {g : DriveGroup} {i : Nat} (d : Disk)
    (h : dataGroupInv i g) : dataGroupInv i (addToGroup g d) := by
  obtain ⟨ht, hs, hu, ha, hn⟩ := h
  refine ⟨ht, ?_, ?_, ?_, hn⟩ <;>
    simp [addToGroup, sumBy_append, sumBy_single, hs.symm, hu.symm, ha.symm]

lemma physUpdate_inv (base : String) (d : Disk) (i : Nat) :
    ∀ phys, (∀ kg ∈ phys, dataGroupInv i kg.2) →
      ∀ kg ∈ physUpdate base d i phys, dataGroupInv i kg.2 := by
  intro phys
  induction phys with
  | nil =>
    intro _ kg hkg
    obtain rfl := List.mem_singleton.mp hkg
    exact newDataGroup_inv d i
  | cons kv rest ih =>
    intro hall kg hkg
    obtain ⟨k, g⟩ := kv
    by_cases hk : k = base
    · rw [physUpdate, if_pos hk] at hkg
      rcases List.mem_cons.mp hkg with rfl | hmem
      · exact addToGroup_inv d (hall (k, g) (List.mem_cons_self _ _))
      · exact hall kg (List.mem_cons_of_mem _ hmem)
    · rw [physUpdate, if_neg hk] at hkg
      rcases List.mem_cons.mp hkg with rfl | hmem
      · exact hall (k, g) (List.mem_cons_self _ _)
      · exact ih (fun kg' h' => hall kg' (List.mem_cons_of_mem _ h')) kg hmem

lemma dataStep_inv (dg : List DriveGroup)
    (st : List String × List (String × DriveGroup)) (d : Disk)
    (h : ∀ kg ∈ st.2, dataGroupInv (dg.length + 1) kg.2) :
    ∀ kg ∈ (dataStep dg st d).2, dataGroupInv (dg.length + 1) kg.2 := by
  unfold dataStep
  split_ifs
  · exact h
  · exact physUpdate_inv _ _ _ st.2 h

lemma dataFold_inv (dg : List DriveGroup) :
    ∀ (ds : List Disk) (st : List String × List (String × DriveGroup)),
      (∀ kg ∈ st.2, dataGroupInv (dg.length + 1) kg.2) →
      ∀ kg ∈ (ds.foldl (dataStep dg) st).2, dataGroupInv (dg.length + 1) kg.2 := by
  intro ds
  induction ds with
  | nil => exact fun st h => h
  | cons d rest ih =>
    intro st h
    rw [List.foldl_cons]
    exact ih _ (dataStep_inv dg st d h)

lemma bootFold_fields :
    ∀ (ds : List Disk) (acc : DriveGroup × List String),
      ((ds.foldl bootStep acc).1.type = acc.1.type)
      ∧ ((ds.foldl bootStep acc).1.Available = acc.1.Available)
      ∧ ((ds.foldl bootStep acc).1.Disks
          = acc.1.Disks ++ ds.filter (fun d => strStartsWith d.MountPoint "/boot"))
      ∧ ((ds.foldl bootStep acc).1.TotalSize
          = acc.1.TotalSize
            + sumBy (·.Size) (ds.filter (fun d => strStartsWith d.MountPoint "/boot")))
      ∧ ((ds.foldl bootStep acc).1.TotalUsed
          = acc.1.TotalUsed
            + sumBy (·.Used) (ds.filter (fun d => strStartsWith d.MountPoint "/boot"))) := by
  intro ds
  induction ds with
  | nil => intro acc; simp [sumBy]
  | cons d rest ih =>
    intro acc
    rw [List.foldl_cons]
    by_cases hb : strStartsWith d.MountPoint "/boot" = true
    · have hstep : bootStep acc d =
          ({ acc.1 with Disks := acc.1.Disks ++ [d],
                        TotalSize := acc.1.TotalSize + d.Size,
                        TotalUsed := acc.1.TotalUsed + d.Used },
           acc.2 ++ [d.Path]) := by
        rw [bootStep, if_pos hb]
      rw [hstep, List.filter_cons, if_pos hb]
      obtain ⟨ht, ha, hd, hs, hu⟩ := ih
        ({ acc.1 with Disks := acc.1.Disks ++ [d],
                      TotalSize := acc.1.TotalSize + d.Size,
                      TotalUsed := acc.1.TotalUsed + d.Used },
         acc.2 ++ [d.Path])
      refine ⟨ht, ha, ?_, ?_, ?_⟩
      · rw [hd]
        dsimp only
        simp [List.append_assoc]
      · rw [hs]
        dsimp only
        rw [sumBy_cons, add_assoc]
      · rw [hu]
        dsimp only
        rw [sumBy_cons, add_assoc]
    · have hstep : bootStep acc d = acc := by
        rw [bootStep, if_neg hb]
      rw [hstep, List.filter_cons, if_neg hb]
      exact ih acc

lemma findSystemGroup_char (disks : List Disk) (root : Disk)
    (hf : disks.find? (fun d => d.MountPoint = "/") = some root) :
    ∃ g paths, findSystemGroup disks = some (g, paths)
      ∧ g.type = "system"
      ∧ g.Available = root.Available
      ∧ g.Disks = root :: disks.filter (fun d => strStartsWith d.MountPoint "/boot")
      ∧ g.TotalSize = sumBy (·.Size) g.Disks
      ∧ g.TotalUsed = sumBy (·.Used) g.Disks := by
  unfold findSystemGroup
  rw [hf]
  dsimp only
  refine ⟨_, _, rfl, ?_, ?_, ?_, ?_, ?_⟩
  all_goals
    obtain ⟨ht, ha, hd, hs, hu⟩ := bootFold_fields disks
      ({ Name := "System Drive", Icon := "💻", type := "system",
         TotalSize := root.Size, TotalUsed := root.Used,
         Available := root.Available, Disks := [root], IsPrimary := true,
         Description := "Linux System" }, [root.Path])
  · exact ht
  · exact ha
  · rw [hd]
    rfl
  · rw [hs, hd]
    dsimp only
    rw [sumBy_append, sumBy_single]
  · rw [hu, hd]
    dsimp only
    rw [sumBy_append, sumBy_single]

lemma removablePass_mem (grouped : List String) (disks : List Disk)
    (g : DriveGroup) (h : g ∈ removablePass grouped disks) :
    g.type = "network" := by
  simp only [removablePass, List.mem_filterMap] at h
  obtain ⟨d, -, hd⟩ := h
  by_cases h1 : grouped.contains d.Path = true
  · rw [if_pos h1] at hd
    exact absurd hd (by simp)
  · rw [if_neg h1] at hd
    by_cases h2 : d.type = TypeNetwork ∨ d.type = TypeFUSE
    · rw [if_pos h2] at hd
      obtain rfl := Option.some.inj hd
      rfl
    · rw [if_neg h2] at hd
      exact absurd hd (by simp)

/-- Case analysis of membership in the result of `GroupDisks`: a group
is the system group (seeded from the first root disk, with the `/boot`
merge), or a data group from the `physicalDisks` map (satisfying
`dataGroupInv 1`, since `len(dataGroups)+1 = 1` while the loop runs), or
a network singleton. -/
lemma groupDisks_mem_cases (disks : List Disk) (g : DriveGroup)
    (hg : g ∈ GroupDisks disks) :
    (∃ root, disks.find? (fun d => d.MountPoint = "/") = some root
       ∧ g.type = "system"
       ∧ g.Available = root.Available
       ∧ g.Disks = root :: disks.filter (fun d => strStartsWith d.MountPoint "/boot")
       ∧ g.TotalSize = sumBy (·.Size) g.Disks
       ∧ g.TotalUsed = sumBy (·.Used) g.Disks)
    ∨ dataGroupInv 1 g
    ∨ g.type = "network" := by
  have hdata :
      ∀ (grouped0 : List String),
        g ∈ (disks.foldl (dataStep []) (grouped0, [])).2.map Prod.snd →
        dataGroupInv 1 g := by
    intro grouped0 hmem
    obtain ⟨kg, hkg, rfl⟩ := List.mem_map.mp hmem
    exact dataFold_inv [] disks (grouped0, [])
      (fun kg' h' => absurd h' (List.not_mem_nil kg')) kg hkg
  simp only [GroupDisks] at hg
  cases hf : disks.find? (fun d => d.MountPoint = "/") with
  | none =>
    have hsys : findSystemGroup disks = none := by
      unfold findSystemGroup
      rw [hf]
    rw [hsys] at hg
    dsimp only at hg
    rw [List.nil_append, List.nil_append] at hg
    rcases List.mem_append.mp hg with hmem | hmem
    · exact Or.inr (Or.inl (hdata _ hmem))
    · exact Or.inr (Or.inr (removablePass_mem _ _ _ hmem))
  | some root =>
    obtain ⟨gs, paths, hsys, hty, hav, hdisks, hts, htu⟩ :=
      findSystemGroup_char disks root hf
    rw [hsys] at hg
    dsimp only at hg
    rw [List.nil_append] at hg
    rcases List.mem_append.mp hg with hmem | hmem
    · rcases List.mem_append.mp hmem with hmem' | hmem'
      · obtain rfl := List.mem_singleton.mp hmem'
        exact Or.inl ⟨root, rfl, hty, hav, hdisks, hts, htu⟩
      · exact Or.inr (Or.inl (hdata _ hmem'))
    · exact Or.inr (Or.inr (removablePass_mem _ _ _ hmem))

/-- **C4.**  Grouping totals: every data group's three byte totals are
the (uint64) sums of its members' fields; the system group's `Available`
is exactly the root disk's `Available` (not a sum), while its
`TotalSize`/`TotalUsed` are summed over the root disk plus every merged
`/boot`-prefixed member. -/
theorem groupDisks_totals (disks : List Disk) (g : DriveGroup)
    (hg : g ∈ GroupDisks disks) :
    (g.type = "data" →
      g.TotalSize = sumBy (·.Size) g.Disks
      ∧ g.TotalUsed = sumBy (·.Used) g.Disks
      ∧ g.Available = sumBy (·.Available) g.Disks)
    ∧ (g.type = "system" →
      ∃ root, disks.find? (fun d => d.MountPoint = "/") = some root
        ∧ g.Disks = root :: disks.filter (fun d => strStartsWith d.MountPoint "/boot")
        ∧ g.Available = root.Available
        ∧ g.TotalSize = sumBy (·.Size) g.Disks
        ∧ g.TotalUsed = sumBy (·.Used) g.Disks) := by
  rcases groupDisks_mem_cases disks g hg with
    ⟨root, hf, hty, hav, hdisks, hts, htu⟩ | hinv | hty
  · constructor
    · intro hdata
      rw [hty] at hdata
      exact absurd hdata (by decide)
    · intro _
      exact ⟨root, hf, hdisks, hav, hts, htu⟩
  · obtain ⟨hty, hs, hu, ha, -⟩ := hinv
    constructor
    · intro _
      exact ⟨hs, hu, ha⟩
    · intro hsys
      rw [hty] at hsys
      exact absurd hsys (by decide)
  · constructor
    · intro hdata
      rw [hty] at hdata
      exact absurd hdata (by decide)
    · intro hsys
      rw [hty] at hsys
      exact absurd hsys (by decide)

/-- Witness for C4 on a one-disk registry whose only group is the data
group of that disk. -/
theorem groupDisks_totals_witness :
    (newDataGroup sampleDisk 1 ∈ GroupDisks [sampleDisk])
    ∧ (((newDataGroup sampleDisk 1).type = "data" →
        (newDataGroup sampleDisk 1).TotalSize
            = sumBy (·.Size) (newDataGroup sampleDisk 1).Disks
        ∧ (newDataGroup sampleDisk 1).TotalUsed
            = sumBy (·.Used) (newDataGroup sampleDisk 1).Disks
        ∧ (newDataGroup sampleDisk 1).Available
            = sumBy (·.Available) (newDataGroup sampleDisk 1).Disks)
      ∧ ((newDataGroup sampleDisk 1).type = "system" →
        ∃ root, [sampleDisk].find? (fun d => d.MountPoint = "/") = some root
          ∧ (newDataGroup sampleDisk 1).Disks
              = root :: [sampleDisk].filter (fun d => strStartsWith d.MountPoint "/boot")
          ∧ (newDataGroup sampleDisk 1).Available = root.Available
          ∧ (newDataGroup sampleDisk 1).TotalSize
              = sumBy (·.Size) (newDataGroup sampleDisk 1).Disks
          ∧ (newDataGroup sampleDisk 1).TotalUsed
              = sumBy (·.Used) (newDataGroup sampleDisk 1).Disks)) :=
  ⟨by decide, groupDisks_totals [sampleDisk] (newDataGroup sampleDisk 1) (by decide)⟩

lemma getDriveName_one_cases (d : Disk) :
    getDriveName d 1 ∈ (["Home Drive", "Data Drive", "Backup Drive",
      "Media Drive", "Volume 1", "SSD Drive 1", "Drive 1", "Storage 1"] :
      List String) := by
  unfold getDriveName
  split_ifs <;> decide

/-- **C10.**  Inside one `GroupDisks` call the index handed to
`getDriveName` for a fresh data group is always `len(dataGroups)+1 = 1`
(the `dataGroups` slice is filled only after the loop), so every data
group is named by `getDriveName _ 1` and a numbered fallback name is
always numbered 1. -/
theorem groupDisks_data_name_index_one (disks : List Disk) (g : DriveGroup)
    (hg : g ∈ GroupDisks disks) (hd : g.type = "data") :
    (∃ d : Disk, g.Name = getDriveName d 1)
    ∧ g.Name ∈ (["Home Drive", "Data Drive", "Backup Drive", "Media Drive",
        "Volume 1", "SSD Drive 1", "Drive 1", "Storage 1"] : List String) := by
  rcases groupDisks_mem_cases disks g hg with
    ⟨root, -, hty, -, -, -, -⟩ | hinv | hty
  · rw [hty] at hd
    exact absurd hd (by decide)
  · obtain ⟨-, -, -, -, d, hname⟩ := hinv
    exact ⟨⟨d, hname⟩, hname ▸ getDriveName_one_cases d⟩
  · rw [hty] at hd
    exact absurd hd (by decide)

/-- Witness for C10 on the same one-disk registry: the single data group
is named `"Drive 1"`. -/
theorem groupDisks_data_name_index_one_witness :
    (newDataGroup sampleDisk 1 ∈ GroupDisks [sampleDisk]
     ∧ (newDataGroup sampleDisk 1).type = "data")
    ∧ ((∃ d : Disk, (newDataGroup sampleDisk 1).Name = getDriveName d 1)
       ∧ (newDataGroup sampleDisk 1).Name ∈
           (["Home Drive", "Data Drive", "Backup Drive", "Media Drive",
             "Volume 1", "SSD Drive 1", "Drive 1", "Storage 1"] : List String)) :=
  ⟨⟨by decide, rfl⟩,
   groupDisks_data_name_index_one [sampleDisk] (newDataGroup sampleDisk 1)
     (by decide) rfl⟩

end Checkpoint
